import Mathlib

/-!
Verification development for the office-crossword generator
(src/scripts/crossword-core.js, src/scripts/crossword.js).

Grid cells mirror the JavaScript representation: the empty string,
the block marker, or a single letter.  Rows and columns are indexed
as in the source; coordinates that the source computes as possibly
negative numbers are carried as integers and guarded exactly where
the source guards them.
-/

namespace OfficeCrossword

/-- A grid cell: JS uses the empty string for an open cell, the
character string for a black square, and a one-letter string for
a placed letter. -/
inductive Cell where
  | empty : Cell
  | block : Cell
  | letter : Char → Cell
deriving DecidableEq, Repr

/-- The crossword grid, a row-major list of rows of cells. -/
abbrev Grid := List (List Cell)

/-- A word is its list of (lower-case) letters. -/
abbrev Word := List Char

/-- Read a cell; out-of-range reads default to a block, and every
source-level read is bounds-guarded before it happens. -/
def getCell (g : Grid) (r c : Nat) : Cell :=
  (g.getD r []).getD c Cell.block

/-- Read a cell at integer coordinates (negative means out of range). -/
def getCellI (g : Grid) (r c : Int) : Cell :=
  if r < 0 ∨ c < 0 then Cell.block else getCell g r.toNat c.toNat

/-- Write a cell (in-bounds writes only ever occur in the source). -/
def setCell (g : Grid) (r c : Nat) (v : Cell) : Grid :=
  g.set r ((g.getD r []).set c v)

/-- `initializeGrid` in crossword-core.js: an n-by-n grid of empty cells. -/
def emptyGrid (n : Nat) : Grid :=
  List.replicate n (List.replicate n Cell.empty)

/-- All coordinates of an n-by-n grid in row-major order. -/
def cellList (n : Nat) : List (Nat × Nat) :=
  (List.range n).flatMap (fun i => (List.range n).map (fun j => (i, j)))

lemma mem_cellList {n : Nat} {rc : Nat × Nat} :
    rc ∈ cellList n ↔ rc.1 < n ∧ rc.2 < n := by
  cases rc with
  | mk i j =>
    simp only [cellList, List.mem_flatMap, List.mem_map, List.mem_range]
    constructor
    · rintro ⟨a, ha, b, hb, hab⟩
      cases hab
      exact ⟨ha, hb⟩
    · rintro ⟨hi, hj⟩
      exact ⟨i, hi, j, hj, rfl⟩

/-! ### Flood fill and region counting (crossword-core.js lines 89-121)

The JS `floodFill` is a recursive 4-neighbour traversal over a
`visited` matrix; it terminates because `visited` only grows.  The
embedding bounds the recursion with explicit fuel (any fuel of at
least n*n+2 realises the full traversal). -/

abbrev VisitGrid := List (List Bool)

def getVis (v : VisitGrid) (r c : Nat) : Bool :=
  (v.getD r []).getD c true

def setVis (v : VisitGrid) (r c : Nat) : VisitGrid :=
  v.set r ((v.getD r []).set c true)

def noneVisited (n : Nat) : VisitGrid :=
  List.replicate n (List.replicate n false)

/-- `floodFill(row, col, grid, visited)`: marks the 4-connected patch of
non-block cells around (r, c) in the visited matrix. -/
def floodFill (n : Nat) (g : Grid) : Nat → Int → Int → VisitGrid → VisitGrid
  | 0, _, _, v => v
  | Nat.succ fuel, r, c, v =>
    if r < 0 ∨ (n : Int) ≤ r ∨ c < 0 ∨ (n : Int) ≤ c then v
    else if getVis v r.toNat c.toNat = true ∨ getCell g r.toNat c.toNat = Cell.block then v
    else
      let v0 := setVis v r.toNat c.toNat
      let v1 := floodFill n g fuel (r + 1) c v0
      let v2 := floodFill n g fuel (r - 1) c v1
      let v3 := floodFill n g fuel r (c + 1) v2
      floodFill n g fuel r (c - 1) v3

/-- One step of the region-counting scan inside
`isValidBlackSquarePlacement`: an unvisited non-block cell starts a
new region. -/
def regionScanStep (n : Nat) (g : Grid) (st : VisitGrid × Nat) (rc : Nat × Nat) :
    VisitGrid × Nat :=
  if getCell g rc.1 rc.2 ≠ Cell.block ∧ getVis st.1 rc.1 rc.2 = false then
    (floodFill n g (n * n + 2) (rc.1 : Int) (rc.2 : Int) st.1, st.2 + 1)
  else st

/-- The `areaCount` computed by `isValidBlackSquarePlacement`
(crossword-core.js lines 95-105): number of 4-connected regions of
non-block cells. -/
def countRegions (n : Nat) (g : Grid) : Nat :=
  ((cellList n).foldl (regionScanStep n g) (noneVisited n, 0)).2

/-- Some in-range cell is not a block. -/
def hasNonBlockCell (n : Nat) (g : Grid) : Bool :=
  (cellList n).any (fun rc => getCell g rc.1 rc.2 ≠ Cell.block)

lemma regionScan_count_mono (n : Nat) (g : Grid) :
    ∀ (l : List (Nat × Nat)) (st : VisitGrid × Nat),
      st.2 ≤ (l.foldl (regionScanStep n g) st).2 := by
  intro l
  induction l with
  | nil => intro st; simp
  | cons hd tl ih =>
    intro st
    simp only [List.foldl_cons]
    refine le_trans ?_ (ih (regionScanStep n g st hd))
    unfold regionScanStep
    split
    · exact Nat.le_succ _
    · exact le_rfl

lemma regionScan_all_skipped (n : Nat) (g : Grid) :
    ∀ (l : List (Nat × Nat)) (v : VisitGrid),
      ((l.foldl (regionScanStep n g) (v, 0)).2 = 0) →
      ∀ rc ∈ l, getCell g rc.1 rc.2 = Cell.block ∨ getVis v rc.1 rc.2 = true := by
  intro l
  induction l with
  | nil => intro v _ rc hrc; cases hrc
  | cons hd tl ih =>
    intro v hfold rc hrc
    by_cases hguard : getCell g hd.1 hd.2 ≠ Cell.block ∧ getVis v hd.1 hd.2 = false
    · exfalso
      have hstep : regionScanStep n g (v, 0) hd =
          (floodFill n g (n * n + 2) (hd.1 : Int) (hd.2 : Int) v, 1) := by
        unfold regionScanStep
        simp [hguard]
      have hmono := regionScan_count_mono n g tl (regionScanStep n g (v, 0) hd)
      rw [hstep] at hmono
      simp only [List.foldl_cons] at hfold
      rw [hstep] at hfold
      omega
    · have hstep : regionScanStep n g (v, 0) hd = (v, 0) := by
        unfold regionScanStep
        simp only [ite_eq_right_iff]
        intro hcontra
        exact absurd hcontra hguard
      simp only [List.foldl_cons, hstep] at hfold
      rcases List.mem_cons.mp hrc with hrc1 | hrc1
      · subst hrc1
        rcases Decidable.em (getCell g rc.1 rc.2 = Cell.block) with hb | hb
        · exact Or.inl hb
        · rcases Decidable.em (getVis v rc.1 rc.2 = true) with hv | hv
          · exact Or.inr hv
          · exact absurd ⟨hb, by simpa using hv⟩ hguard
      · exact ih v hfold rc hrc1

lemma getVis_noneVisited {n i j : Nat} (hi : i < n) (hj : j < n) :
    getVis (noneVisited n) i j = false := by
  unfold getVis noneVisited
  simp [List.getD_eq_getElem?_getD, List.getElem?_replicate, hi, hj]

/-- If any in-range cell is not a block, the region scan reports at
least one region. -/
lemma countRegions_pos_of_nonblock {n : Nat} {g : Grid}
    (h : hasNonBlockCell n g = true) : 1 ≤ countRegions n g := by
  by_contra hlt
  have hzero : countRegions n g = 0 := by omega
  unfold countRegions at hzero
  rcases List.any_eq_true.mp h with ⟨rc, hmem, hnb⟩
  have hskip := regionScan_all_skipped n g (cellList n) (noneVisited n) hzero rc hmem
  have hb := mem_cellList.mp hmem
  rcases hskip with hblk | hvis
  · simp [hblk] at hnb
  · rw [getVis_noneVisited hb.1 hb.2] at hvis
    cases hvis

/-! ### Random symmetric block placement (crossword-core.js lines 61-108)

`placeBlackSquares` proposes a quadrant cell together with its three
mirror images and accepts each position individually: the position must
keep the count below the budget, be empty, and pass the copy-grid
connectivity check `isValidBlackSquarePlacement`. -/

/-- `isValidBlackSquarePlacement(row, col)`: place the block on a copy
and require at most one region of non-block cells. -/
def isValidBlackSquarePlacement (n : Nat) (g : Grid) (r c : Nat) : Bool :=
  countRegions n (setCell g r c Cell.block) ≤ 1

/-- The acceptance test applied to each proposed position inside the
`positions.forEach` of `placeBlackSquares` (lines 76-83). -/
def acceptBlackSquare (n : Nat) (g : Grid) (cnt mx : Nat) (r c : Nat) : Bool :=
  decide (cnt < mx) && (decide (getCell g r c = Cell.empty)) &&
    isValidBlackSquarePlacement n g r c

/-- The four mirror positions proposed for quadrant cell (i, j)
(lines 71-74). -/
def symmetricPositions (n i j : Nat) : List (Nat × Nat) :=
  [(i, j), (i, n - 1 - j), (n - 1 - i, j), (n - 1 - i, n - 1 - j)]

/-- One accepted random draw of `placeBlackSquares`: the `forEach`
over the four mirror positions, each position individually guarded. -/
def placeBlackSquareGroup (n mx : Nat) (st : Grid × Nat) (i j : Nat) : Grid × Nat :=
  (symmetricPositions n i j).foldl
    (fun st rc =>
      if acceptBlackSquare n st.1 st.2 mx rc.1 rc.2 = true then
        (setCell st.1 rc.1 rc.2 Cell.block, st.2 + 1)
      else st)
    st

/-! ### Word placement with symmetry (crossword-core.js lines 123-315)

`tryPlaceHorizontalWithSymmetry` first validates the word's own cells
via `canPlaceWordWithSymmetry`, then writes the word, and finally
writes the rotational counterpart without any validation. -/

/-- A placed word record: text, start cell, orientation, number. -/
structure PlacedWord where
  word : Word
  row : Int
  col : Int
  horizontal : Bool
  number : Nat
deriving DecidableEq, Repr

/-- The i-th letter of a word (always accessed in range by the source). -/
def letterAt (w : Word) (i : Nat) : Char :=
  w.getD i ' '

/-- A cell holding a letter (JS: not the block marker and not empty). -/
def isLetterCell : Cell → Bool
  | Cell.letter _ => true
  | _ => false

/-- `hasCrossingWord(row, col, isHorizontal)` (lines 304-315). -/
def hasCrossingWord (n : Nat) (g : Grid) (r c : Nat) (isHorizontal : Bool) : Bool :=
  if isHorizontal then
    (decide (0 < r) && isLetterCell (getCell g (r - 1) c)) ||
      (decide (r < n - 1) && isLetterCell (getCell g (r + 1) c))
  else
    (decide (0 < c) && isLetterCell (getCell g r (c - 1))) ||
      (decide (c < n - 1) && isLetterCell (getCell g r (c + 1)))

/-- `wouldCreateIsolatedLetters(word, row, col, horizontal)` (lines 288-302). -/
def wouldCreateIsolatedLetters (n : Nat) (g : Grid) (w : Word) (r c : Nat)
    (horizontal : Bool) : Bool :=
  if horizontal then
    (List.range w.length).any (fun i => !hasCrossingWord n g r (c + i) horizontal)
  else
    (List.range w.length).any (fun i => !hasCrossingWord n g (r + i) c horizontal)

/-- Per-cell compatibility inside `canPlaceWordWithSymmetry`: the cell
must not be a block, and must be empty or already hold the word's
letter. -/
def cellFits (cell : Cell) (ch : Char) : Bool :=
  !(cell = Cell.block) && (cell = Cell.empty || cell = Cell.letter ch)

/-- `canPlaceWordWithSymmetry(word, row, col, horizontal)` (lines 255-286);
`pil` is the configured `placement.preventIsolatedLetters` flag. -/
def canPlaceWordWithSymmetry (pil : Bool) (n : Nat) (g : Grid) (w : Word)
    (r c : Nat) (horizontal : Bool) : Bool :=
  if horizontal then
    decide (c + w.length ≤ n) &&
      (List.range w.length).all (fun i => cellFits (getCell g r (c + i)) (letterAt w i)) &&
      !(pil && wouldCreateIsolatedLetters n g w r c true)
  else
    decide (r + w.length ≤ n) &&
      (List.range w.length).all (fun i => cellFits (getCell g (r + i) c) (letterAt w i)) &&
      !(pil && wouldCreateIsolatedLetters n g w r c false)

/-- Write a word horizontally starting at (r, c). -/
def writeWordH (g : Grid) (w : Word) (r c : Nat) : Grid :=
  (List.range w.length).foldl
    (fun g2 i => setCell g2 r (c + i) (Cell.letter (letterAt w i))) g

/-- `tryPlaceHorizontalWithSymmetry(word, row, col)` (lines 196-224):
validate, write the word, then write the rotational counterpart with
no validation at all.  `placedCount` is `this.placedWords.length`. -/
def tryPlaceHorizontalWithSymmetry (pil : Bool) (n : Nat) (g : Grid) (w : Word)
    (r c : Nat) (placedCount : Nat) : Option (PlacedWord × Grid) :=
  if n < c + w.length then none
  else if canPlaceWordWithSymmetry pil n g w r c true = false then none
  else
    let g1 := writeWordH g w r c
    let symRow := n - 1 - r
    let symCol : Int := (n : Int) - 1 - c - w.length + 1
    let g2 :=
      if 0 ≤ symCol ∧ symCol + w.length ≤ (n : Int) then
        writeWordH g1 w symRow symCol.toNat
      else g1
    some (⟨w, (r : Int), (c : Int), true, placedCount + 1⟩, g2)

/-- The anchor choice of `placeWordsWithSymmetry` (line 128):
`selectedWords.find(w => w.length >= 5) || selectedWords[0]`. -/
def anchorWord (ws : List Word) : Option Word :=
  match ws.find? (fun w => decide (5 ≤ w.length)) with
  | some w => some w
  | none => ws.head?

/-- The anchor step of `placeWordsWithSymmetry` (lines 127-157):
centre the anchor word on the middle row, then write its rotational
counterpart. -/
def placeCentralWord (n : Nat) (g : Grid) (ws : List Word) : Grid × List PlacedWord :=
  match anchorWord ws with
  | none => (g, [])
  | some w =>
    let center := n / 2
    let startCol : Int := (center : Int) - (w.length / 2 : Nat)
    if 0 ≤ startCol ∧ startCol + (w.length : Int) ≤ (n : Int) then
      let g1 := writeWordH g w center startCol.toNat
      let symRow := n - 1 - center
      let symCol : Int := (n : Int) - 1 - startCol - (w.length : Int) + 1
      let g2 :=
        if 0 ≤ symCol ∧ symCol + (w.length : Int) ≤ (n : Int) then
          writeWordH g1 w symRow symCol.toNat
        else g1
      (g2, [⟨w, (center : Int), startCol, true, 1⟩])
    else (g, [])

/-- The cells a horizontally placed word occupies, read from the grid. -/
def readRowCells (g : Grid) (r c len : Nat) : List Cell :=
  (List.range len).map (fun i => getCell g r (c + i))

set_option maxRecDepth 1000000

/-! ### Claims C2 and C5: block placement -/

/-- C2.  Counterexample run for the symmetry invariant: with a block
budget of 2 (gridSize 5, blackSquares.percentage 0.08), the first
accepted random draw processes the mirror group of quadrant cell
(0, 0), places blocks at (0, 0) and (0, 4), and then hits the budget,
so the point mirror (4, 4) of (0, 0) stays open: the block layout is
not 180-degree rotationally symmetric. -/
theorem budget_cutoff_breaks_block_symmetry :
    getCell (placeBlackSquareGroup 5 2 (emptyGrid 5, 0) 0 0).1 0 0 = Cell.block ∧
    getCell (placeBlackSquareGroup 5 2 (emptyGrid 5, 0) 0 0).1 4 4 = Cell.empty := by
  decide

/-- C5.  A proposed block cell is accepted only if it is currently
empty and the copy-grid connectivity check on the grid with the block
added reports at most one region of non-block cells, hence exactly one
whenever any non-block cell remains; in particular no accepted block
placement splits the non-block cells into more than one region. -/
theorem acceptBlackSquare_keeps_connectivity (n : Nat) (g : Grid) (cnt mx r c : Nat)
    (h : acceptBlackSquare n g cnt mx r c = true) :
    getCell g r c = Cell.empty ∧
    countRegions n (setCell g r c Cell.block) ≤ 1 ∧
    (hasNonBlockCell n (setCell g r c Cell.block) = true →
      countRegions n (setCell g r c Cell.block) = 1) := by
  unfold acceptBlackSquare isValidBlackSquarePlacement at h
  simp only [Bool.and_eq_true, decide_eq_true_eq] at h
  obtain ⟨⟨-, hempty⟩, hvalid⟩ := h
  refine ⟨hempty, hvalid, fun hnb => ?_⟩
  have hpos := countRegions_pos_of_nonblock hnb
  omega

/-- Witness for C5 on a concrete 3×3 grid. -/
theorem acceptBlackSquare_keeps_connectivity_witness :
    acceptBlackSquare 3 (emptyGrid 3) 0 2 0 0 = true ∧
    (getCell (emptyGrid 3) 0 0 = Cell.empty ∧
      countRegions 3 (setCell (emptyGrid 3) 0 0 Cell.block) ≤ 1 ∧
      (hasNonBlockCell 3 (setCell (emptyGrid 3) 0 0 Cell.block) = true →
        countRegions 3 (setCell (emptyGrid 3) 0 0 Cell.block) = 1)) :=
  ⟨by decide, acceptBlackSquare_keeps_connectivity 3 (emptyGrid 3) 0 2 0 0 (by decide)⟩

/-! ### Claim C1: the unchecked mirror write -/

def wordPUZZLE : Word := "puzzle".toList

/-- C1.  Counterexample run, reached before any further word is
placed: the anchor step itself writes the anchor's rotational
counterpart with no validity check.  On the default 15×15 grid the
180-degree image of the centred even-length anchor "puzzle" starts
one column to the right of the anchor, so the unchecked copy
overwrites the anchor's own cells: the placed word "puzzle" at
(7, 4) reads "ppuzzl".  A placed word's occupied cells do not spell
its letters. -/
theorem mirror_write_corrupts_placed_word :
    (placeCentralWord 15 (emptyGrid 15) [wordPUZZLE]).2 =
      [⟨wordPUZZLE, 7, 4, true, 1⟩] ∧
    readRowCells (placeCentralWord 15 (emptyGrid 15) [wordPUZZLE]).1 7 4 6 =
      [Cell.letter 'p', Cell.letter 'p', Cell.letter 'u', Cell.letter 'z',
        Cell.letter 'z', Cell.letter 'l'] ∧
    wordPUZZLE.map Cell.letter ≠
      [Cell.letter 'p', Cell.letter 'p', Cell.letter 'u', Cell.letter 'z',
        Cell.letter 'z', Cell.letter 'l'] := by
  decide

/-! ### Claim C3: the anchor word -/

def wordCROSSWORD : Word := "crossword".toList

/-- C3.  The anchor is the first word of length at least 5 in the
selected queue (the queue's first word when none qualifies); it is
placed horizontally on the middle row, starting at column
size/2 - len/2; concretely, on a 15×15 grid the 9-letter anchor
"crossword" occupies cells [7][3..11] in order. -/
theorem anchor_first_long_word_centered :
    (∀ (ws : List Word) (w : Word), anchorWord ws = some w →
      (5 ≤ w.length ∧ ∃ l1 l2, ws = l1 ++ w :: l2 ∧ ∀ v ∈ l1, v.length < 5) ∨
      ((∀ v ∈ ws, v.length < 5) ∧ ws.head? = some w)) ∧
    (∀ (n : Nat) (g : Grid) (ws : List Word) (pw : PlacedWord),
      pw ∈ (placeCentralWord n g ws).2 →
      anchorWord ws = some pw.word ∧ pw.horizontal = true ∧
      pw.row = ((n / 2 : Nat) : Int) ∧
      pw.col = ((n / 2 : Nat) : Int) - ((pw.word.length / 2 : Nat) : Int)) ∧
    (readRowCells (placeCentralWord 15 (emptyGrid 15) [wordCROSSWORD]).1 7 3 9 =
        wordCROSSWORD.map Cell.letter ∧
      (placeCentralWord 15 (emptyGrid 15) [wordCROSSWORD]).2 =
        [⟨wordCROSSWORD, 7, 3, true, 1⟩]) := by
  refine ⟨?_, ?_, by decide⟩
  · intro ws w h
    unfold anchorWord at h
    cases hfind : ws.find? (fun w => decide (5 ≤ w.length)) with
    | some w0 =>
      rw [hfind] at h
      cases h
      left
      obtain ⟨hp, l1, l2, heq, hall⟩ := List.find?_eq_some.mp hfind
      refine ⟨by simpa using hp, l1, l2, heq, fun v hv => ?_⟩
      have hv2 := hall v hv
      simp only [Bool.not_eq_eq_eq_not, Bool.not_true, decide_eq_false_iff_not] at hv2
      omega
    | none =>
      rw [hfind] at h
      right
      refine ⟨fun v hv => ?_, h⟩
      have hv2 := List.find?_eq_none.mp hfind v hv
      simp only [decide_eq_true_eq] at hv2
      omega
  · intro n g ws pw hmem
    unfold placeCentralWord at hmem
    cases hanch : anchorWord ws with
    | none =>
      rw [hanch] at hmem
      cases hmem
    | some w =>
      rw [hanch] at hmem
      dsimp only at hmem
      by_cases hguard :
          0 ≤ ((n / 2 : Nat) : Int) - ((w.length / 2 : Nat) : Int) ∧
            ((n / 2 : Nat) : Int) - ((w.length / 2 : Nat) : Int) + (w.length : Int) ≤ (n : Int)
      · rw [if_pos hguard] at hmem
        rcases List.mem_singleton.mp hmem with rfl
        exact ⟨rfl, rfl, rfl, rfl⟩
      · rw [if_neg hguard] at hmem
        cases hmem

/-- Witness for C3: applying the anchor characterisation at the
concrete queue ["cat", "crossword"]. -/
theorem anchor_first_long_word_centered_witness :
    (5 ≤ wordCROSSWORD.length ∧
      ∃ l1 l2, ["cat".toList, wordCROSSWORD] = l1 ++ wordCROSSWORD :: l2 ∧
        ∀ v ∈ l1, v.length < 5) ∨
    ((∀ v ∈ ["cat".toList, wordCROSSWORD], v.length < 5) ∧
      (["cat".toList, wordCROSSWORD] : List Word).head? = some wordCROSSWORD) :=
  anchor_first_long_word_centered.1 ["cat".toList, wordCROSSWORD] wordCROSSWORD (by decide)

/-! ### A stable comparator sort

JavaScript's `Array.prototype.sort` is specified to be stable and to
order the array by the supplied comparator; insertion sort realises
exactly that contract and computes inside the kernel. -/

def insertBy {α : Type} (le : α → α → Bool) (x : α) : List α → List α
  | [] => [x]
  | y :: ys => if le x y then x :: y :: ys else y :: insertBy le x ys

def sortBy {α : Type} (le : α → α → Bool) : List α → List α
  | [] => []
  | a :: l => insertBy le a (sortBy le l)

lemma mem_insertBy {α : Type} (le : α → α → Bool) (x b : α) :
    ∀ l : List α, b ∈ insertBy le x l ↔ b = x ∨ b ∈ l := by
  intro l
  induction l with
  | nil => simp [insertBy]
  | cons y ys ih =>
    by_cases h : le x y = true
    · simp [insertBy, h]
    · simp only [insertBy, if_neg h, List.mem_cons, ih]
      tauto

lemma pairwise_insertBy {α : Type} {le : α → α → Bool}
    (htrans : ∀ a b c, le a b = true → le b c = true → le a c = true)
    (htotal : ∀ a b, le a b = true ∨ le b a = true) (x : α) :
    ∀ {l : List α}, l.Pairwise (fun a b => le a b = true) →
      (insertBy le x l).Pairwise (fun a b => le a b = true) := by
  intro l
  induction l with
  | nil => intro _; simp [insertBy]
  | cons y ys ih =>
    intro hp
    rcases List.pairwise_cons.mp hp with ⟨hy, hys⟩
    by_cases h : le x y = true
    · rw [insertBy, if_pos h]
      refine List.pairwise_cons.mpr ⟨?_, hp⟩
      intro b hb
      rcases List.mem_cons.mp hb with rfl | hb2
      · exact h
      · exact htrans x y b h (hy b hb2)
    · rw [insertBy, if_neg h]
      refine List.pairwise_cons.mpr ⟨?_, ih hys⟩
      intro b hb
      rcases (mem_insertBy le x b ys).mp hb with rfl | hb2
      · rcases htotal b y with hby | hyb
        · exact absurd hby h
        · exact hyb
      · exact hy b hb2

lemma sortBy_pairwise {α : Type} {le : α → α → Bool}
    (htrans : ∀ a b c, le a b = true → le b c = true → le a c = true)
    (htotal : ∀ a b, le a b = true ∨ le b a = true) :
    ∀ l : List α, (sortBy le l).Pairwise (fun a b => le a b = true) := by
  intro l
  induction l with
  | nil => simp [sortBy]
  | cons a l ih => exact pairwise_insertBy htrans htotal a ih

lemma mem_sortBy {α : Type} (le : α → α → Bool) (b : α) :
    ∀ l : List α, b ∈ sortBy le l ↔ b ∈ l := by
  intro l
  induction l with
  | nil => simp [sortBy]
  | cons a l ih =>
    simp only [sortBy, mem_insertBy, List.mem_cons, ih]

lemma sortBy_of_pairwise {α : Type} {le : α → α → Bool} :
    ∀ {l : List α}, l.Pairwise (fun a b => le a b = true) → sortBy le l = l := by
  intro l
  induction l with
  | nil => intro _; rfl
  | cons a l ih =>
    intro hp
    rcases List.pairwise_cons.mp hp with ⟨ha, hl⟩
    rw [sortBy, ih hl]
    cases l with
    | nil => rfl
    | cons y ys => rw [insertBy, if_pos (ha y (List.mem_cons_self y ys))]

lemma length_sortBy {α : Type} (le : α → α → Bool) :
    ∀ l : List α, (sortBy le l).length = l.length := by
  have hins : ∀ (x : α) (l : List α), (insertBy le x l).length = l.length + 1 := by
    intro x l
    induction l with
    | nil => rfl
    | cons y ys ih =>
      by_cases h : le x y = true
      · simp [insertBy, h]
      · simp [insertBy, h, ih]
  intro l
  induction l with
  | nil => rfl
  | cons a l ih => rw [sortBy, hins, ih, List.length_cons]

/-! ### The consolidated generator class (crossword-core.js lines 1892-3902) -/

/-- Generator state: grid size, grid, already placed words. -/
structure GenState where
  gridSize : Nat
  crossword : Grid
  placedWords : List PlacedWord

/-- An intersection record from `findWordIntersections`. -/
structure Isec where
  word1Index : Nat
  word2Index : Nat
  letter : Char
  score : Int
deriving DecidableEq, Repr

def commonLetters : List Char := ['e', 'a', 'r', 't', 'o', 'i', 'n', 's']

/-- `calculateIntersectionScore(word1, word2, index1, index2)`
(lines 2303-2324).  The JS value uses exact halves (`length / 2`);
the embedding carries twice the JS score, an integer, which realises
the same comparator order. -/
def calculateIntersectionScore (w1 w2 : Word) (i j : Nat) : Int :=
  let d1 : Int := ((2 * i : Int) - w1.length).natAbs
  let d2 : Int := ((2 * j : Int) - w2.length).natAbs
  let s1 : Int := (2 * w1.length - d1) + (2 * w2.length - d2)
  let s2 : Int := s1 + 2 * (w1.length + w2.length)
  if letterAt w1 i ∈ commonLetters then s2 + 10 else s2

/-- `findWordIntersections(word1, word2)` (lines 2266-2293): all index
pairs with equal letters, sorted by score descending (stably). -/
def findWordIntersections (w1 w2 : Word) : List Isec :=
  if w1.length < 3 ∨ w2.length < 3 then []
  else
    sortBy (fun a b => decide (b.score ≤ a.score))
      ((List.range w1.length).flatMap (fun i =>
        (List.range w2.length).flatMap (fun j =>
          if letterAt w1 i = letterAt w2 j then
            [⟨i, j, letterAt w1 i, calculateIntersectionScore w1 w2 i j⟩]
          else [])))

/-- `calculateIntersectionPlacement(word, existingWord, intersection)`
(lines 3201-3231).  The source assigns the `number` field only when a
placement is selected; 0 stands for the not-yet-assigned field. -/
def calculateIntersectionPlacement (n : Nat) (w : Word) (ew : PlacedWord)
    (it : Isec) : Option PlacedWord :=
  if ew.horizontal then
    let newRow : Int := ew.row - it.word2Index
    let newCol : Int := ew.col + it.word1Index
    if 0 ≤ newRow ∧ newRow + (w.length : Int) ≤ (n : Int) then
      some ⟨w, newRow, newCol, false, 0⟩
    else none
  else
    let newRow : Int := ew.row + it.word1Index
    let newCol : Int := ew.col - it.word2Index
    if 0 ≤ newCol ∧ newCol + (w.length : Int) ≤ (n : Int) then
      some ⟨w, newRow, newCol, true, 0⟩
    else none

/-- `wordsOverlap(placement1, placement2)` (lines 2627-2642): two
same-direction collinear placements whose spans overlap. -/
def wordsOverlap (p1 p2 : PlacedWord) : Bool :=
  if p1.horizontal = p2.horizontal then
    if p1.row = p2.row ∧ p1.horizontal = true then
      !(decide (p1.col + (p1.word.length : Int) ≤ p2.col) ||
        decide (p2.col + (p2.word.length : Int) ≤ p1.col))
    else if p1.col = p2.col ∧ p1.horizontal = false then
      !(decide (p1.row + (p1.word.length : Int) ≤ p2.row) ||
        decide (p2.row + (p2.word.length : Int) ≤ p1.row))
    else false
  else false

/-- A JS grid read: `crossword[r][c]` yields the cell when both
indices are in range and `undefined` otherwise. -/
def readCellJs (g : Grid) (r c : Int) : Option Cell :=
  if r < 0 ∨ c < 0 then none
  else (g[r.toNat]?).bind (fun row => row[c.toNat]?)

/-- `wouldOverwriteLetters(placement)` (lines 2589-2619): some target
cell fails the test `cell !== '' && cell !== '#'`.  An in-range cell
fails it exactly when it holds a letter.  An out-of-range column read
yields `undefined`, which also satisfies the test, so the candidate is
rejected; an out-of-range row access would throw and abort the
attempt, so that candidate is never placed either — both out-of-range
cases are embedded as rejection. -/
def wouldOverwriteLetters (st : GenState) (p : PlacedWord) : Bool :=
  (List.range p.word.length).any (fun i =>
    let cellRead :=
      if p.horizontal then readCellJs st.crossword p.row (p.col + i)
      else readCellJs st.crossword (p.row + i) p.col
    match cellRead with
    | some cell => isLetterCell cell
    | none => true)

/-- `hasMinimumSpacing(placement)` (lines 2649-2694): words shorter
than 3 letters are always rejected; parallel words within one row or
column of each other need at least one cell of separation.  (The
source's reference-identity skip can never fire for the freshly built
candidate objects this check receives.) -/
def hasMinimumSpacing (st : GenState) (p : PlacedWord) : Bool :=
  if p.word.length < 3 then false
  else
    st.placedWords.all (fun pw =>
      if p.horizontal then
        if pw.horizontal = true ∧ (p.row - pw.row).natAbs ≤ 1 then
          decide (p.col + (p.word.length : Int) - 1 < pw.col - 1) ||
            decide (pw.col + (pw.word.length : Int) - 1 + 1 < p.col)
        else true
      else
        if pw.horizontal = false ∧ (p.col - pw.col).natAbs ≤ 1 then
          decide (p.row + (p.word.length : Int) - 1 < pw.row - 1) ||
            decide (pw.row + (pw.word.length : Int) - 1 + 1 < p.row)
        else true)

/-- `isValidPlacement(placement)` (lines 2552-2582): bounds, no letter
overwriting, no collinear overlap with a placed word, spacing. -/
def isValidPlacement (st : GenState) (p : PlacedWord) : Bool :=
  if p.row < 0 ∨ p.col < 0 then false
  else if p.horizontal = true ∧ (st.gridSize : Int) < p.col + p.word.length then false
  else if p.horizontal = false ∧ (st.gridSize : Int) < p.row + p.word.length then false
  else if wouldOverwriteLetters st p then false
  else if st.placedWords.any (fun pw => wordsOverlap p pw) then false
  else hasMinimumSpacing st p

/-- Manhattan distance of a placement's start cell from the centre. -/
def manhattanFromCenter (st : GenState) (p : PlacedWord) : Int :=
  ((p.row - (st.gridSize / 2 : Nat)).natAbs : Int) +
    ((p.col - (st.gridSize / 2 : Nat)).natAbs : Int)

/-- `calculatePlacementScore(placement)` (lines 2702-2721). -/
def calculatePlacementScore (st : GenState) (p : PlacedWord) : Int :=
  let s0 : Int := (p.word.length : Int) * 2
  let s1 : Int :=
    st.placedWords.foldl (fun s pw => if wordsOverlap p pw then s + 10 else s) s0
  s1 + ((st.gridSize : Int) - manhattanFromCenter st p)

/-- The candidate placements enumerated by the intersection phase of
`findBestIntersectionPlacement` (lines 3159-3174), in enumeration
order. -/
def intersectionCandidates (st : GenState) (w : Word) : List PlacedWord :=
  st.placedWords.flatMap (fun pw =>
    (findWordIntersections w pw.word).filterMap
      (fun it => calculateIntersectionPlacement st.gridSize w pw it))

/-- The selection loop of `findBestIntersectionPlacement`: keep the
first valid candidate whose score strictly beats the best so far
(initially -1). -/
def bestGo (st : GenState) : Option PlacedWord → Int → List PlacedWord → Option PlacedWord
  | best, _, [] => best
  | best, bs, c :: cs =>
    if isValidPlacement st c = true ∧ bs < calculatePlacementScore st c then
      bestGo st (some c) (calculatePlacementScore st c) cs
    else bestGo st best bs cs

/-- The intersection phase of `findBestIntersectionPlacement`. -/
def bestIntersectionCandidate (st : GenState) (w : Word) : Option PlacedWord :=
  bestGo st none (-1) (intersectionCandidates st w)

/-- All integers from lo to hi inclusive (a JS `for` loop range). -/
def intRange (lo hi : Int) : List Int :=
  if lo ≤ hi then (List.range (hi + 1 - lo).toNat).map (fun k => lo + k) else []

/-- `wouldCreate2x2Block(row, col)` (lines 2960-2977): some 2x2 window
containing (row, col) already holds at least three blocks. -/
def wouldCreate2x2Block (n : Nat) (g : Grid) (row col : Nat) : Bool :=
  (intRange (max 0 ((row : Int) - 1)) (min ((n : Int) - 2) (row : Int))).any (fun r =>
    (intRange (max 0 ((col : Int) - 1)) (min ((n : Int) - 2) (col : Int))).any (fun c =>
      3 ≤ ([(0, 0), (0, 1), (1, 0), (1, 1)] : List (Int × Int)).countP
        (fun d => getCellI g (r + d.1) (c + d.2) = Cell.block)))

/-- `isValidBlackSquarePlacement(row, col)` of the standalone generator
(lines 1313-1337): the corner rule, and a 2x2 rule that inspects only
the window whose bottom-right cell is the candidate. -/
def isValidBlackSquarePlacementFn (avoidCorners avoid2x2 : Bool) (n : Nat)
    (g : Grid) (r c : Nat) : Bool :=
  if avoidCorners ∧ ((r = 0 ∧ c = 0) ∨ (r = 0 ∧ c = n - 1) ∨
      (r = n - 1 ∧ c = 0) ∨ (r = n - 1 ∧ c = n - 1)) then false
  else if avoid2x2 ∧ 0 < r ∧ 0 < c ∧ getCell g (r - 1) c = Cell.block ∧
      getCell g r (c - 1) = Cell.block ∧ getCell g (r - 1) (c - 1) = Cell.block then
    false
  else true

/-- The property claimed for the generated grid: some 2x2 sub-square
consists entirely of blocks. -/
def has2x2AllBlock (n : Nat) (g : Grid) : Bool :=
  (cellList (n - 1)).any (fun rc =>
    getCell g rc.1 rc.2 = Cell.block ∧ getCell g rc.1 (rc.2 + 1) = Cell.block ∧
      getCell g (rc.1 + 1) rc.2 = Cell.block ∧ getCell g (rc.1 + 1) (rc.2 + 1) = Cell.block)

/-- The central-word choice of `generateCrosswordGrid` (line 3030):
`words.find(w => w.length >= 6) || words[0]`. -/
def centralWordChoice (words : List Word) : Option Word :=
  match words.find? (fun w => decide (6 ≤ w.length)) with
  | some w => some w
  | none => words.head?

/-- The central placement built by `generateCrosswordGrid`
(lines 3040-3053), pushed onto `placedWords` without any validity
check. -/
def centralPlacement (n : Nat) (words : List Word) : Option PlacedWord :=
  (centralWordChoice words).map (fun w =>
    ⟨w, ((n / 2 : Nat) : Int), max 0 (((n / 2 : Nat) : Int) - ((w.length / 2 : Nat) : Int)),
      true, 1⟩)

/-- The comparator of `renumberWordsSequentially` (lines 3129-3134):
by row, then by column. -/
def wordLe (a b : PlacedWord) : Bool :=
  if a.row = b.row then decide (a.col ≤ b.col) else decide (a.row ≤ b.row)

/-- Assign consecutive numbers starting at k. -/
def numberFrom (k : Nat) : List PlacedWord → List PlacedWord
  | [] => []
  | w :: ws => { w with number := k } :: numberFrom (k + 1) ws

/-- `renumberWordsSequentially()` (lines 3125-3147): stably sort the
placed words by start cell and assign numbers 1, 2, ... in order. -/
def renumberWordsSequentially (ws : List PlacedWord) : List PlacedWord :=
  if ws.isEmpty then ws else numberFrom 1 (sortBy wordLe ws)

/-! ### Word selection (crossword.js lines 199-226) -/

/-- The static fallback list returned when no valid words remain. -/
def fallbackSelectionWords : List Word :=
  ["crossword".toList, "puzzle".toList, "word".toList, "game".toList,
    "play".toList, "solve".toList, "clue".toList, "answer".toList]

/-- The regular expression test `/^[a-z]+$/`. -/
def isAlphaLower (w : Word) : Bool :=
  decide (w ≠ []) && w.all (fun ch => decide ('a' ≤ ch) && decide (ch ≤ 'z'))

/-- The filter predicate of `selectWordsForPuzzle` in crossword.js. -/
def validSelectionWord (minLength maxLength : Nat) (w : Word) : Bool :=
  decide (minLength ≤ w.length) && decide (w.length ≤ maxLength) && isAlphaLower w

/-- `selectWordsForPuzzle()` (crossword.js lines 199-226): filter by
length and alphabet; an empty result yields the inline fallback list,
otherwise sort by length descending and take up to targetCount*2. -/
def selectWordsForPuzzleJs (words : List Word) (minLength maxLength targetCount : Nat) :
    List Word :=
  let validWords := words.filter (validSelectionWord minLength maxLength)
  if validWords.isEmpty then fallbackSelectionWords
  else
    let sorted := sortBy (fun a b => decide (b.length ≤ a.length)) validWords
    sorted.take (min (targetCount * 2) sorted.length)

/-! ### `findIntersection` of the symmetric generator (lines 641-720) -/

/-- A candidate produced by `findIntersection`:
`{row, col, horizontal, intersectionPoint, existingLetterIndex}`. -/
structure IsecCand where
  row : Int
  col : Int
  horizontal : Bool
  intersectionPoint : Nat
  existingLetterIndex : Nat
deriving DecidableEq, Repr

/-- `findIntersection(newWord, existingWord)` (lines 641-720): the full
candidate list the source draws a random element from. -/
def findIntersectionCands (n : Nat) (nw : Word) (ew : PlacedWord) : List IsecCand :=
  if ew.horizontal then
    (List.range ew.word.length).flatMap (fun i =>
      (List.range nw.length).flatMap (fun j =>
        if letterAt nw j = letterAt ew.word i then
          (if 0 ≤ ew.row - (j : Int) ∧ ew.row - (j : Int) + (nw.length : Int) ≤ (n : Int) then
            [⟨ew.row - (j : Int), ew.col + (i : Int), false, j, i⟩]
          else []) ++
          (if 0 ≤ ew.row + ((nw.length - j - 1 : Nat) : Int) ∧
              ew.row + ((nw.length - j - 1 : Nat) : Int) + (nw.length : Int) ≤ (n : Int) then
            [⟨ew.row + ((nw.length - j - 1 : Nat) : Int), ew.col + (i : Int), false, j, i⟩]
          else [])
        else []))
  else
    (List.range ew.word.length).flatMap (fun i =>
      (List.range nw.length).flatMap (fun j =>
        if letterAt nw j = letterAt ew.word i then
          (if 0 ≤ ew.col - (j : Int) ∧ ew.col - (j : Int) + (nw.length : Int) ≤ (n : Int) then
            [⟨ew.row + (i : Int), ew.col - (j : Int), true, j, i⟩]
          else []) ++
          (if 0 ≤ ew.col + ((nw.length - j - 1 : Nat) : Int) ∧
              ew.col + ((nw.length - j - 1 : Nat) : Int) + (nw.length : Int) ≤ (n : Int) then
            [⟨ew.row + (i : Int), ew.col + ((nw.length - j - 1 : Nat) : Int), true, j, i⟩]
          else [])
        else []))

/-! ### Claim C4: intersection placement -/

def wordWORLD : Word := "world".toList

/-- The anchor "crossword" across at row 7, column 3 of the 15×15 grid. -/
def cwAnchor : PlacedWord := ⟨wordCROSSWORD, 7, 3, true, 1⟩

/-- C4 counterexample.  Index 4 of "crossword" is 's', not 'o'; no
candidate of `findIntersection` for "world" against "crossword" at
(7, 3) lies in column 7, and no placement derived from
`findWordIntersections`/`calculateIntersectionPlacement` lies at
column 7, rows 6..10 — so "world" is never placed vertically at
column 7 as the claim states. -/
theorem world_not_placed_at_column7 :
    letterAt wordCROSSWORD 4 = 's' ∧
    (findIntersectionCands 15 wordWORLD cwAnchor).all
      (fun cand => !(decide (cand.col = 7))) = true ∧
    ((findWordIntersections wordWORLD wordCROSSWORD).filterMap
        (fun it => calculateIntersectionPlacement 15 wordWORLD cwAnchor it)).all
      (fun p => !(decide (p.col = 7) && decide (p.row = 6))) = true := by
  decide

/-- C4 amended.  For a horizontally placed existing word,
`findIntersection` enumerates, for every shared letter at index i of
the existing word and index j of the new word, the vertical candidate
in the shared letter's column (existing col + i) starting j rows above
the existing word's row; concretely, "world" against "crossword" at
(7, 3) sharing 'o' (index 6 of "crossword", index 1 of "world") yields
the vertical candidate at column 9, rows 6..10. -/
theorem intersection_alignment_above :
    (∀ (n : Nat) (ew : PlacedWord) (nw : Word) (i j : Nat),
      ew.horizontal = true → i < ew.word.length → j < nw.length →
      letterAt nw j = letterAt ew.word i →
      0 ≤ ew.row - (j : Int) → ew.row - (j : Int) + (nw.length : Int) ≤ (n : Int) →
      (⟨ew.row - (j : Int), ew.col + (i : Int), false, j, i⟩ : IsecCand) ∈
        findIntersectionCands n nw ew) ∧
    ((⟨6, 9, false, 1, 6⟩ : IsecCand) ∈ findIntersectionCands 15 wordWORLD cwAnchor ∧
      (6 : Int) + (wordWORLD.length : Int) - 1 = 10) := by
  constructor
  · intro n ew nw i j hh hi hj hmatch h0 h1
    unfold findIntersectionCands
    rw [if_pos hh]
    refine List.mem_flatMap.mpr ⟨i, List.mem_range.mpr hi, ?_⟩
    refine List.mem_flatMap.mpr ⟨j, List.mem_range.mpr hj, ?_⟩
    rw [if_pos hmatch]
    refine List.mem_append_left _ ?_
    rw [if_pos ⟨h0, h1⟩]
    exact List.mem_singleton.mpr rfl
  · exact ⟨by decide, by decide⟩

/-- Witness for C4's amended statement: the general alignment theorem
applied at the "world"/"crossword" instance. -/
theorem intersection_alignment_above_witness :
    (⟨cwAnchor.row - ((1 : Nat) : Int), cwAnchor.col + ((6 : Nat) : Int), false, 1, 6⟩ :
        IsecCand) ∈ findIntersectionCands 15 wordWORLD cwAnchor :=
  intersection_alignment_above.1 15 cwAnchor wordWORLD 6 1 (by decide) (by decide)
    (by decide) (by decide) (by decide) (by decide)

/-! ### Claim C6: the 2x2 block rule -/

/-- Three blocks around the still-open cell (1, 2). -/
def gridTwoByTwo : Grid :=
  setCell (setCell (setCell (emptyGrid 5) 1 3 Cell.block) 2 2 Cell.block) 2 3 Cell.block

/-- C6.  The standalone generator's `isValidBlackSquarePlacement`
checks only the 2x2 window whose bottom-right cell is the candidate:
it accepts placing a block at (1, 2) although that completes the
all-block 2x2 square on rows 1-2, columns 2-3 (which the consolidated
`wouldCreate2x2Block` correctly detects). -/
theorem missing_2x2_window_check :
    isValidBlackSquarePlacementFn true true 5 gridTwoByTwo 1 2 = true ∧
    wouldCreate2x2Block 5 gridTwoByTwo 1 2 = true ∧
    has2x2AllBlock 5 gridTwoByTwo = false ∧
    has2x2AllBlock 5 (setCell gridTwoByTwo 1 2 Cell.block) = true := by
  decide

/-! ### Claim C7: word numbering -/

lemma wordLe_total : ∀ a b : PlacedWord, wordLe a b = true ∨ wordLe b a = true := by
  intro a b
  unfold wordLe
  by_cases h : a.row = b.row
  · rw [if_pos h, if_pos h.symm]
    simp only [decide_eq_true_eq]
    omega
  · rw [if_neg h, if_neg (fun hh => h hh.symm)]
    simp only [decide_eq_true_eq]
    omega

lemma wordLe_trans : ∀ a b c : PlacedWord,
    wordLe a b = true → wordLe b c = true → wordLe a c = true := by
  intro a b c hab hbc
  unfold wordLe at hab hbc ⊢
  by_cases h1 : a.row = b.row
  · rw [if_pos h1] at hab
    by_cases h2 : b.row = c.row
    · rw [if_pos h2] at hbc
      rw [if_pos (h1.trans h2)]
      simp only [decide_eq_true_eq] at hab hbc ⊢
      omega
    · rw [if_neg h2] at hbc
      rw [if_neg (fun h => h2 (h1.symm.trans h))]
      simp only [decide_eq_true_eq] at hab hbc ⊢
      omega
  · rw [if_neg h1] at hab
    by_cases h2 : b.row = c.row
    · rw [if_pos h2] at hbc
      rw [if_neg (fun h => h1 (h.trans h2.symm))]
      simp only [decide_eq_true_eq] at hab hbc ⊢
      omega
    · rw [if_neg h2] at hbc
      simp only [decide_eq_true_eq] at hab hbc
      have h3 : ¬ a.row = c.row := by omega
      rw [if_neg h3]
      simp only [decide_eq_true_eq]
      omega

lemma length_numberFrom : ∀ (l : List PlacedWord) (k : Nat),
    (numberFrom k l).length = l.length := by
  intro l
  induction l with
  | nil => intro k; rfl
  | cons w ws ih => intro k; simp [numberFrom, ih]

lemma numberFrom_getElem? : ∀ (l : List PlacedWord) (k i : Nat),
    (numberFrom k l)[i]? = (l[i]?).map (fun w => { w with number := k + i }) := by
  intro l
  induction l with
  | nil => intro k i; simp [numberFrom]
  | cons w ws ih =>
    intro k i
    cases i with
    | zero => simp [numberFrom]
    | succ i2 =>
      simp only [numberFrom, List.getElem?_cons_succ, ih]
      have harith : k + 1 + i2 = k + (i2 + 1) := by omega
      rw [harith]

lemma numberFrom_numberFrom : ∀ (l : List PlacedWord) (k j : Nat),
    numberFrom k (numberFrom j l) = numberFrom k l := by
  intro l
  induction l with
  | nil => intro k j; rfl
  | cons w ws ih => intro k j; simp [numberFrom, ih]

lemma numberFrom_getElem : ∀ (l : List PlacedWord) (k i : Nat) (hi : i < l.length),
    (numberFrom k l).get ⟨i, by rw [length_numberFrom]; exact hi⟩ =
      { l.get ⟨i, hi⟩ with number := k + i } := by
  intro l k i hi
  have h1 := numberFrom_getElem? l k i
  rw [List.getElem?_eq_getElem (by rw [length_numberFrom]; exact hi),
    List.getElem?_eq_getElem hi] at h1
  simpa using h1

lemma pairwise_numberFrom (l : List PlacedWord) (k : Nat)
    (h : l.Pairwise (fun a b => wordLe a b = true)) :
    (numberFrom k l).Pairwise (fun a b => wordLe a b = true) := by
  rw [List.pairwise_iff_getElem] at h ⊢
  intro i j hi hj hij
  have hi2 : i < l.length := by rwa [length_numberFrom] at hi
  have hj2 : j < l.length := by rwa [length_numberFrom] at hj
  have e1 := numberFrom_getElem l k i hi2
  have e2 := numberFrom_getElem l k j hj2
  simp only [List.get_eq_getElem] at e1 e2
  rw [e1, e2]
  exact h i j hi2 hj2 hij

/-- C7 counterexample.  Two placed words starting at the same cell
(0, 0), one across and one down: renumbering gives them the two
distinct numbers 1 and 2 instead of one shared number. -/
theorem shared_start_cell_two_numbers :
    renumberWordsSequentially
        [⟨"abc".toList, 0, 0, true, 7⟩, ⟨"abd".toList, 0, 0, false, 7⟩] =
      [⟨"abc".toList, 0, 0, true, 1⟩, ⟨"abd".toList, 0, 0, false, 2⟩] := by
  decide

/-- C7 amended.  `renumberWordsSequentially` numbers the placed words
1, 2, ... in the stable (row, col) order of their start cells: a word
whose start cell is strictly earlier in row-major order gets a
strictly smaller number, and re-running the pass on its own output is
the identity; but a cell starting both an Across and a Down word
yields two distinct consecutive numbers, one per word. -/
theorem renumber_monotone_and_idempotent :
    (∀ (ws : List PlacedWord) (w1 w2 : PlacedWord),
      w1 ∈ renumberWordsSequentially ws → w2 ∈ renumberWordsSequentially ws →
      (w1.row < w2.row ∨ (w1.row = w2.row ∧ w1.col < w2.col)) →
      w1.number < w2.number) ∧
    (∀ ws : List PlacedWord,
      renumberWordsSequentially (renumberWordsSequentially ws) =
        renumberWordsSequentially ws) := by
  constructor
  · intro ws w1 w2 h1 h2 hlex
    unfold renumberWordsSequentially at h1 h2
    by_cases hemp : ws.isEmpty = true
    · rw [if_pos hemp] at h1
      rcases List.isEmpty_iff.mp hemp with rfl
      cases h1
    · rw [if_neg hemp] at h1 h2
      obtain ⟨i, hi⟩ := List.mem_iff_getElem?.mp h1
      obtain ⟨j, hj⟩ := List.mem_iff_getElem?.mp h2
      rw [numberFrom_getElem?] at hi hj
      obtain ⟨w1s, hw1s, hw1eq⟩ := Option.map_eq_some'.mp hi
      obtain ⟨w2s, hw2s, hw2eq⟩ := Option.map_eq_some'.mp hj
      obtain ⟨hi2, hw1g⟩ := List.getElem?_eq_some_iff.mp hw1s
      obtain ⟨hj2, hw2g⟩ := List.getElem?_eq_some_iff.mp hw2s
      have hpair := sortBy_pairwise wordLe_trans wordLe_total ws
      rw [List.pairwise_iff_getElem] at hpair
      have hrow1 : w1.row = w1s.row := by rw [← hw1eq]
      have hcol1 : w1.col = w1s.col := by rw [← hw1eq]
      have hnum1 : w1.number = 1 + i := by rw [← hw1eq]
      have hrow2 : w2.row = w2s.row := by rw [← hw2eq]
      have hcol2 : w2.col = w2s.col := by rw [← hw2eq]
      have hnum2 : w2.number = 1 + j := by rw [← hw2eq]
      rcases Nat.lt_trichotomy i j with hij | hij | hij
      · omega
      · exfalso
        subst hij
        rw [hw1g] at hw2g
        rw [hw2g] at hrow1 hcol1
        omega
      · exfalso
        have hle := hpair j i hj2 hi2 hij
        rw [hw1g, hw2g] at hle
        unfold wordLe at hle
        by_cases hr : w2s.row = w1s.row
        · rw [if_pos hr] at hle
          simp only [decide_eq_true_eq] at hle
          omega
        · rw [if_neg hr] at hle
          simp only [decide_eq_true_eq] at hle
          omega
  · intro ws
    by_cases hemp : ws.isEmpty = true
    · rcases List.isEmpty_iff.mp hemp with rfl
      rfl
    · have hinner : renumberWordsSequentially ws = numberFrom 1 (sortBy wordLe ws) := by
        rw [renumberWordsSequentially, if_neg hemp]
      have hlen : (numberFrom 1 (sortBy wordLe ws)).length = ws.length := by
        rw [length_numberFrom, length_sortBy]
      have hne : ¬ (numberFrom 1 (sortBy wordLe ws)).isEmpty = true := by
        intro hx
        rw [List.isEmpty_iff.mp hx] at hlen
        exact hemp (List.isEmpty_iff.mpr (List.length_eq_zero.mp hlen.symm))
      rw [hinner, renumberWordsSequentially, if_neg hne]
      have hpair := pairwise_numberFrom (sortBy wordLe ws) 1
        (sortBy_pairwise wordLe_trans wordLe_total ws)
      rw [sortBy_of_pairwise hpair, numberFrom_numberFrom]

/-- Witness for C7's amended statement: applied to a two-word list
with distinct start cells. -/
theorem renumber_monotone_and_idempotent_witness :
    (⟨"abc".toList, 0, 0, true, 1⟩ : PlacedWord).number <
      (⟨"abd".toList, 2, 0, false, 2⟩ : PlacedWord).number :=
  renumber_monotone_and_idempotent.1
    [⟨"abd".toList, 2, 0, false, 9⟩, ⟨"abc".toList, 0, 0, true, 9⟩]
    ⟨"abc".toList, 0, 0, true, 1⟩ ⟨"abd".toList, 2, 0, false, 2⟩
    (by decide) (by decide) (by decide)

/-! ### Claim C8: placement scoring and selection -/

lemma foldl_overlap_count (p : PlacedWord) :
    ∀ (l : List PlacedWord) (s : Int),
      l.foldl (fun s pw => if wordsOverlap p pw then s + 10 else s) s =
        s + 10 * (l.countP (fun pw => wordsOverlap p pw) : Int) := by
  intro l
  induction l with
  | nil => intro s; simp
  | cons a l ih =>
    intro s
    rw [List.foldl_cons, List.countP_cons]
    by_cases h : wordsOverlap p a = true
    · rw [if_pos h, ih, if_pos h]
      push_cast
      ring
    · rw [if_neg h, ih, if_neg h]
      push_cast
      ring

lemma bestGo_spec (st : GenState) :
    ∀ (cs : List PlacedWord) (best : Option PlacedWord) (bs : Int) (p : PlacedWord),
      bestGo st best bs cs = some p →
      (best = some p ∧ ∀ q ∈ cs, isValidPlacement st q = true →
        calculatePlacementScore st q ≤ bs) ∨
      (∃ l1 l2, cs = l1 ++ p :: l2 ∧ isValidPlacement st p = true ∧
        bs < calculatePlacementScore st p ∧
        (∀ q ∈ l1, isValidPlacement st q = true →
          calculatePlacementScore st q < calculatePlacementScore st p) ∧
        (∀ q ∈ l2, isValidPlacement st q = true →
          calculatePlacementScore st q ≤ calculatePlacementScore st p)) := by
  intro cs
  induction cs with
  | nil =>
    intro best bs p h
    left
    exact ⟨h, by intro q hq; cases hq⟩
  | cons c cs ih =>
    intro best bs p h
    rw [bestGo] at h
    by_cases hc : isValidPlacement st c = true ∧ bs < calculatePlacementScore st c
    · rw [if_pos hc] at h
      rcases ih (some c) (calculatePlacementScore st c) p h with ⟨heq, hall⟩ | hfound
      · right
        cases heq
        refine ⟨[], cs, rfl, hc.1, hc.2, ?_, hall⟩
        intro q hq
        cases hq
      · obtain ⟨l1, l2, hsplit, hvalid, hgt, hl1, hl2⟩ := hfound
        right
        refine ⟨c :: l1, l2, by simp [hsplit], hvalid, lt_trans hc.2 hgt, ?_, hl2⟩
        intro q hq hqv
        rcases List.mem_cons.mp hq with rfl | hq2
        · exact hgt
        · exact hl1 q hq2 hqv
    · rw [if_neg hc] at h
      rcases ih best bs p h with ⟨heq, hall⟩ | hfound
      · left
        refine ⟨heq, ?_⟩
        intro q hq hqv
        rcases List.mem_cons.mp hq with rfl | hq2
        · rcases Decidable.em (bs < calculatePlacementScore st q) with hlt | hlt
          · exact absurd ⟨hqv, hlt⟩ hc
          · omega
        · exact hall q hq2 hqv
      · obtain ⟨l1, l2, hsplit, hvalid, hgt, hl1, hl2⟩ := hfound
        right
        refine ⟨c :: l1, l2, by simp [hsplit], hvalid, hgt, ?_, hl2⟩
        intro q hq hqv
        rcases List.mem_cons.mp hq with rfl | hq2
        · rcases Decidable.em (bs < calculatePlacementScore st q) with hlt | hlt
          · exact absurd ⟨hqv, hlt⟩ hc
          · omega
        · exact hl1 q hq2 hqv

/-- C8.  The score of a candidate placement is
2·len + 10·(number of placed words the candidate overlaps per
`wordsOverlap`) + (gridSize − manhattan distance of the start cell
from the centre); and the intersection phase of
`findBestIntersectionPlacement` returns a valid candidate of maximal
score, ties resolved to the first such candidate in enumeration
order. -/
theorem placement_score_and_best_selection :
    (∀ (st : GenState) (p : PlacedWord),
      calculatePlacementScore st p =
        2 * (p.word.length : Int) +
          10 * (st.placedWords.countP (fun pw => wordsOverlap p pw) : Int) +
          ((st.gridSize : Int) - manhattanFromCenter st p)) ∧
    (∀ (st : GenState) (w : Word) (p : PlacedWord),
      bestIntersectionCandidate st w = some p →
      ∃ l1 l2, intersectionCandidates st w = l1 ++ p :: l2 ∧
        isValidPlacement st p = true ∧
        (∀ q ∈ l1, isValidPlacement st q = true →
          calculatePlacementScore st q < calculatePlacementScore st p) ∧
        (∀ q ∈ l2, isValidPlacement st q = true →
          calculatePlacementScore st q ≤ calculatePlacementScore st p)) := by
  constructor
  · intro st p
    unfold calculatePlacementScore
    simp only [foldl_overlap_count]
    ring
  · intro st w p h
    unfold bestIntersectionCandidate at h
    rcases bestGo_spec st (intersectionCandidates st w) none (-1) p h with ⟨heq, -⟩ | hfound
    · cases heq
    · obtain ⟨l1, l2, hsplit, hvalid, -, hl1, hl2⟩ := hfound
      exact ⟨l1, l2, hsplit, hvalid, hl1, hl2⟩

/-- The 15×15 grid with the anchor "crossword" written on row 7. -/
def cwState : GenState :=
  ⟨15, writeWordH (emptyGrid 15) wordCROSSWORD 7 3, [cwAnchor]⟩

/-- The placement the selection loop picks for "world" in `cwState`. -/
def worldPick : PlacedWord := ⟨wordWORLD, 1, 4, false, 0⟩

/-- Witness for C8: the selection characterisation applied to the
concrete state with "crossword" placed and the word "world". -/
theorem placement_score_and_best_selection_witness :
    ∃ l1 l2, intersectionCandidates cwState wordWORLD = l1 ++ worldPick :: l2 ∧
      isValidPlacement cwState worldPick = true ∧
      (∀ q ∈ l1, isValidPlacement cwState q = true →
        calculatePlacementScore cwState q < calculatePlacementScore cwState worldPick) ∧
      (∀ q ∈ l2, isValidPlacement cwState q = true →
        calculatePlacementScore cwState q ≤ calculatePlacementScore cwState worldPick) :=
  placement_score_and_best_selection.2 cwState wordWORLD worldPick (by decide)

/-! ### Claim C9: word selection with an empty filtered pool -/

/-- C9 counterexample.  With a pool whose entries all fail the length
constraints, `selectWordsForPuzzle` in crossword.js does not raise any
error: it itself returns the non-empty inline fallback word list. -/
theorem empty_pool_returns_inline_fallback :
    selectWordsForPuzzleJs [['a', 'b']] 3 12 20 = fallbackSelectionWords ∧
    fallbackSelectionWords ≠ [] ∧ fallbackSelectionWords.length = 8 := by
  decide

/-- C9 amended.  Whenever the filtered pool is empty, the selection
function returns the static fallback list (a non-empty result) rather
than failing: recovery is inline in the selection operation itself. -/
theorem select_empty_filter_fallback (words : List Word) (minL maxL tc : Nat)
    (h : (words.filter (validSelectionWord minL maxL)).isEmpty = true) :
    selectWordsForPuzzleJs words minL maxL tc = fallbackSelectionWords ∧
    fallbackSelectionWords ≠ [] := by
  refine ⟨?_, by decide⟩
  simp only [selectWordsForPuzzleJs, h, if_true]

/-- Witness for C9's amended statement at the concrete pool [\"ab\"]. -/
theorem select_empty_filter_fallback_witness :
    selectWordsForPuzzleJs [['a', 'b']] 3 12 20 = fallbackSelectionWords ∧
    fallbackSelectionWords ≠ [] :=
  select_empty_filter_fallback [['a', 'b']] 3 12 20 (by decide)

/-! ### Claim C10: minimum word length -/

/-- The word filter of `selectSmartWordSet` (crossword-core.js
lines 2174-2179), whose output is the only word queue
`generateCrosswordGrid` ever receives (line 2050); `chk` stands for
the `isValidEnglishWord` quality predicate. -/
def smartWordFilter (minLength maxLength : Nat) (chk : Word → Bool)
    (words : List Word) : List Word :=
  words.filter (fun w =>
    decide (minLength ≤ w.length) && decide (w.length ≤ maxLength) &&
      chk w && decide (4 ≤ w.length))

/-- The `isValidPlacement` half of the minimum-length argument:
`hasMinimumSpacing` is the last test of `isValidPlacement` and rejects
every word shorter than 3 letters outright. -/
lemma isValidPlacement_min_length_aux (st : GenState) (p : PlacedWord)
    (h : isValidPlacement st p = true) : 3 ≤ p.word.length := by
  unfold isValidPlacement at h
  by_cases h1 : p.row < 0 ∨ p.col < 0
  · rw [if_pos h1] at h; cases h
  · rw [if_neg h1] at h
    by_cases h2 : p.horizontal = true ∧ (st.gridSize : Int) < p.col + p.word.length
    · rw [if_pos h2] at h; cases h
    · rw [if_neg h2] at h
      by_cases h3 : p.horizontal = false ∧ (st.gridSize : Int) < p.row + p.word.length
      · rw [if_pos h3] at h; cases h
      · rw [if_neg h3] at h
        by_cases h4 : wouldOverwriteLetters st p = true
        · rw [if_pos h4] at h; cases h
        · rw [if_neg h4] at h
          by_cases h5 : st.placedWords.any (fun pw => wordsOverlap p pw) = true
          · rw [if_pos h5] at h; cases h
          · rw [if_neg h5] at h
            unfold hasMinimumSpacing at h
            by_cases h6 : p.word.length < 3
            · rw [if_pos h6] at h; cases h
            · omega

/-- C10.  Any placement accepted by `isValidPlacement` has word length
at least 3, because `hasMinimumSpacing` rejects shorter words
unconditionally, regardless of the configured minimum word length;
moreover every word of the queue `generateCrosswordGrid` receives
passes the `word.length >= 4` filter of `selectSmartWordSet`, so the
placed words all have length at least 3. -/
theorem isValidPlacement_min_length :
    (∀ (st : GenState) (p : PlacedWord),
      isValidPlacement st p = true → 3 ≤ p.word.length) ∧
    (∀ (minL maxL : Nat) (chk : Word → Bool) (words : List Word) (w : Word),
      w ∈ smartWordFilter minL maxL chk words → 3 ≤ w.length) := by
  constructor
  · intro st p h
    exact isValidPlacement_min_length_aux st p h
  · intro minL maxL chk words w hw
    have hmem := List.mem_filter.mp hw
    have hlen := hmem.2
    simp only [Bool.and_eq_true, decide_eq_true_eq] at hlen
    omega

/-- Witness for C10 at concrete inputs: a valid 3-letter placement,
and the word "abcd" passing the smart filter. -/
theorem isValidPlacement_min_length_witness :
    (isValidPlacement ⟨5, emptyGrid 5, []⟩ ⟨"abc".toList, 0, 0, true, 0⟩ = true ∧
      3 ≤ ("abc".toList : Word).length) ∧
    ("abcd".toList ∈ smartWordFilter 3 12 (fun _ => true) ["abcd".toList] ∧
      3 ≤ ("abcd".toList : Word).length) :=
  ⟨⟨by decide,
      isValidPlacement_min_length.1 ⟨5, emptyGrid 5, []⟩ ⟨"abc".toList, 0, 0, true, 0⟩
        (by decide)⟩,
    ⟨by decide,
      isValidPlacement_min_length.2 3 12 (fun _ => true) ["abcd".toList] "abcd".toList
        (by decide)⟩⟩

end OfficeCrossword
